import Mathlib

/-!
CommsDataVisualizer — verification of the aggregation core

Shallow embedding of the time-windowed spatial-aggregation pipeline of
`visualizer.py` and `visualizer2.py` (functions `preprocess_data` and
`merge_bucket`), together with the pandas primitives they invoke.

Modelling conventions:
* A dataframe is a `List Sample`; a row is a `Sample`.
* A cell that pandas would hold as `NaN`/`NaT` (missing, or an
  unparseable timestamp after `pd.to_datetime(..., errors="coerce")`)
  is `Option.none`.  Timestamps are integer seconds, numeric metric
  cells are exact rationals, categorical cells are strings.
* pandas reductions `Series.min` / `Series.max` / `Series.mean` skip
  missing values and return missing when every value is missing; they
  are modelled by `series_min` / `series_max` / `series_mean`.
* `DataFrame.sort_values` on the key list `["latitude", "longitude",
  "datetime"]` is a stable lexicographic sort (pandas multi-key sort
  uses a stable lexsort); it is modelled by a stable insertion sort.
  The per-group single-column `sort_values("datetime")` at
  `visualizer.py:98` uses pandas' default `kind='quicksort'`, which is
  documented as NOT stable; it is nevertheless modelled here by the
  same stable sort (the deterministic reading), a deviation recorded
  against the stability claim about that line.
* `groupby(["latitude", "longitude"])` on a key-sorted frame yields the
  maximal runs of equal coordinate keys, in ascending key order, each
  run keeping the frame's row order; it is modelled by `groupRuns`.
-/

namespace CommsDataVisualizer

/-- One raw measurement row, with the columns read by the aggregation
core.  `none` is a missing (`NaN`) cell; `datetime` is already in
parsed-or-`NaT` form (`pd.to_datetime(..., errors="coerce")` of the raw
string is the external pandas parser; `none` is an unparseable or
missing timestamp). -/
structure Sample where
  datetime : Option Int
  latitude : Option Rat
  longitude : Option Rat
  wireless_signal : Option Rat
  wireless_noisef : Option Rat
  wireless_rssi : Option Rat
  wireless_txpower : Option Rat
  wireless_distance : Option Rat
  wireless_ccq : Option Rat
  wireless_txrate : Option Rat
  wireless_rxrate : Option Rat
  wireless_channel : Option String
  wireless_frequency : Option String
  wireless_opmode : Option String
  deriving DecidableEq, Repr

/-- The aggregated row built by `merge_bucket`: exactly the keys of the
`merged` dict literal at `visualizer.py:128-159`. -/
structure Merged where
  datetime : Option Int
  latitude : Option Rat
  longitude : Option Rat
  signal_min : Option Rat
  signal_max : Option Rat
  noise_min : Option Rat
  noise_max : Option Rat
  wireless_txrate_max : Option Rat
  wireless_txrate_min : Option Rat
  wireless_rxrate_max : Option Rat
  wireless_rxrate_min : Option Rat
  wireless_signal : Option Rat
  wireless_noisef : Option Rat
  wireless_rssi : Option Rat
  wireless_txpower : Option Rat
  wireless_distance : Option Rat
  wireless_ccq : Option Rat
  wireless_txrate : Option Rat
  wireless_rxrate : Option Rat
  wireless_channel : Option String
  wireless_frequency : Option String
  wireless_opmode : Option String
  samples_merged : Nat
  deriving DecidableEq, Repr

/-! Section: pandas primitives used by the core -/

/-- The values of a column that are present (drop the `NaN`s), in row
order — the values a skipna reduction actually reduces over. -/
def series_vals (xs : List (Option Rat)) : List Rat :=
  xs.filterMap id

/-- Model of `Series.min` with default `skipna=True`: minimum of the present
values, `NaN` when all values are missing. -/
def series_min (xs : List (Option Rat)) : Option Rat :=
  match series_vals xs with
  | [] => none
  | v :: vs => some (vs.foldl min v)

/-- Model of `Series.max` with default `skipna=True`. -/
def series_max (xs : List (Option Rat)) : Option Rat :=
  match series_vals xs with
  | [] => none
  | v :: vs => some (vs.foldl max v)

/-- Model of `Series.mean` with default `skipna=True`: arithmetic mean of the
present values, `NaN` when all values are missing. -/
def series_mean (xs : List (Option Rat)) : Option Rat :=
  match series_vals xs with
  | [] => none
  | v :: vs => some ((v :: vs).sum / ((v :: vs).length : Rat))

/-- Model of `Series.min` on the datetime column (skipna; all values are present
after the `dropna`). -/
def dt_min (xs : List (Option Int)) : Option Int :=
  match xs.filterMap id with
  | [] => none
  | v :: vs => some (vs.foldl min v)

/-- The row-validity test of
`df.dropna(subset=["datetime", "latitude", "longitude"])`: the row is
kept exactly when all three cells are present. -/
def valid (s : Sample) : Bool :=
  s.datetime.isSome && s.latitude.isSome && s.longitude.isSome

/-- The grouping key of `groupby(["latitude", "longitude"])`. -/
def locKey (s : Sample) : Option Rat × Option Rat :=
  (s.latitude, s.longitude)

/-- Strict order on a possibly-missing rational sort key; pandas sorts
`NaN` last (`na_position='last'`). -/
def optRatLt (x y : Option Rat) : Bool :=
  match x, y with
  | some a, some b => a < b
  | some _, none => true
  | none, _ => false

/-- Nonstrict order on a possibly-missing timestamp key, `NaT` last. -/
def optIntLe (x y : Option Int) : Bool :=
  match x, y with
  | some a, some b => a ≤ b
  | some _, none => true
  | none, some _ => false
  | none, none => true

/-- The lexicographic comparison realised by
`df.sort_values(["latitude", "longitude", "datetime"])`. -/
def sampleKeyLe (a b : Sample) : Bool :=
  if a.latitude = b.latitude then
    if a.longitude = b.longitude then optIntLe a.datetime b.datetime
    else optRatLt a.longitude b.longitude
  else optRatLt a.latitude b.latitude

/-- The comparison of the per-group `sort_values("datetime")`. -/
def dtLe (a b : Sample) : Bool :=
  optIntLe a.datetime b.datetime

/-- Insert into a sorted list, before the first element it is `le` to:
equal keys keep the later-inserted element behind earlier list
elements, which makes `insertionSort` stable. -/
def insertSorted (le : α → α → Bool) (x : α) : List α → List α
  | [] => [x]
  | y :: ys => if le x y then x :: y :: ys else y :: insertSorted le x ys

/-- Stable sort modelling pandas' stable sorts (`np.lexsort` for the
multi-key `sort_values`; see the header note on the single-column
sort kind). -/
def insertionSort (le : α → α → Bool) : List α → List α
  | [] => []
  | x :: xs => insertSorted le x (insertionSort le xs)

/-- Model of `df.sort_values(["latitude", "longitude", "datetime"])`
(`visualizer.py:92`). -/
def sort_values_key (rows : List Sample) : List Sample :=
  insertionSort sampleKeyLe rows

/-- Model of `group.sort_values("datetime")` (`visualizer.py:98`). -/
def sort_values_datetime (rows : List Sample) : List Sample :=
  insertionSort dtLe rows

/-- Model of `df.groupby(["latitude", "longitude"])` on a key-sorted frame:
split into maximal runs of rows with equal `locKey`, preserving row
order.  On the frame sorted at `visualizer.py:92` this yields exactly
pandas' groups, in ascending key order. -/
def groupRuns : List Sample → List (List Sample)
  | [] => []
  | s :: rest =>
    match groupRuns rest with
    | [] => [[s]]
    | [] :: gs => [s] :: [] :: gs
    | (t :: g) :: gs =>
      if locKey s = locKey t then (s :: t :: g) :: gs
      else [s] :: (t :: g) :: gs

end CommsDataVisualizer

namespace CommsDataVisualizer.visualizer

/-- The constant `MERGE_WINDOW_SECONDS = 6` (`visualizer.py:8`). -/
def MERGE_WINDOW_SECONDS : Int := 6

/-- The bucket test
`row["datetime"] - bucket_start_time <= timedelta(seconds=MERGE_WINDOW_SECONDS)`
(`visualizer.py:109`).  `NaT` arithmetic yields `NaT` and any
comparison against `NaT` is false, hence the missing cases. -/
def withinWindow (t start : Option Int) : Bool :=
  match t, start with
  | some a, some b => decide (a - b ≤ MERGE_WINDOW_SECONDS)
  | _, _ => false

/-- The bucket-building loop of `preprocess_data`
(`visualizer.py:100-117`), returning the buckets it closes, in the
order it closes them.  State: `cur` is `current_bucket`, `start` is
`bucket_start_time`.  The Python loop calls `merge_bucket` on each
bucket the moment it closes it; here the buckets are returned and
`preprocess_data` maps `merge_bucket` over them, which appends the
same merged rows in the same order. -/
def windowLoop : List Sample → List Sample → Option Int → List (List Sample)
  | [], cur, _ => if cur.isEmpty then [] else [cur]
  | row :: rest, cur, start =>
    if cur.isEmpty then windowLoop rest [row] row.datetime
    else if withinWindow row.datetime start then
      windowLoop rest (cur ++ [row]) start
    else
      cur :: windowLoop rest [row] row.datetime

/-- The merge-windows of one location group: the loop started with an
empty `current_bucket` and `bucket_start_time = None`. -/
def windows (group : List Sample) : List (List Sample) :=
  windowLoop group [] none

/-- Transcription of `merge_bucket` (`visualizer.py:122-161`): reduce one bucket to one
aggregated row.  `dfb["..."].iloc[0]` on the non-empty buckets the
caller passes is the first row's cell, modelled by `head?.bind`. -/
def merge_bucket (rows : List Sample) : Merged :=
  { datetime := dt_min (rows.map Sample.datetime)
    latitude := (rows.head?).bind Sample.latitude
    longitude := (rows.head?).bind Sample.longitude
    signal_min := series_min (rows.map Sample.wireless_signal)
    signal_max := series_max (rows.map Sample.wireless_signal)
    noise_min := series_min (rows.map Sample.wireless_noisef)
    noise_max := series_max (rows.map Sample.wireless_noisef)
    wireless_txrate_max := series_max (rows.map Sample.wireless_txrate)
    wireless_txrate_min := series_min (rows.map Sample.wireless_txrate)
    wireless_rxrate_max := series_max (rows.map Sample.wireless_rxrate)
    wireless_rxrate_min := series_min (rows.map Sample.wireless_rxrate)
    wireless_signal := series_mean (rows.map Sample.wireless_signal)
    wireless_noisef := series_mean (rows.map Sample.wireless_noisef)
    wireless_rssi := series_mean (rows.map Sample.wireless_rssi)
    wireless_txpower := series_mean (rows.map Sample.wireless_txpower)
    wireless_distance := series_mean (rows.map Sample.wireless_distance)
    wireless_ccq := series_mean (rows.map Sample.wireless_ccq)
    wireless_txrate := series_mean (rows.map Sample.wireless_txrate)
    wireless_rxrate := series_mean (rows.map Sample.wireless_rxrate)
    wireless_channel := (rows.head?).bind Sample.wireless_channel
    wireless_frequency := (rows.head?).bind Sample.wireless_frequency
    wireless_opmode := (rows.head?).bind Sample.wireless_opmode
    samples_merged := rows.length }

/-- Model of `pd.to_datetime(df["datetime"], errors="coerce")` applied to the
column (`visualizer.py:86`).  On this embedding's representation the
column already holds the parse result, so the coercion is the
identity on cells. -/
def parse_datetime_col (rows : List Sample) : List Sample :=
  rows.map (fun s => { s with datetime := s.datetime })

/-- Transcription of `preprocess_data` (`visualizer.py:77-119`): copy, coerce the
datetime column, drop invalid rows, key-sort, group by exact
location, window each group and merge every bucket, accumulating the
merged rows over all groups in order. -/
def preprocess_data (df : List Sample) : List Merged :=
  let df1 := parse_datetime_col df
  let df2 := df1.filter valid
  let df3 := sort_values_key df2
  (groupRuns df3).foldl
    (fun merged_rows g =>
      merged_rows ++ (windows (sort_values_datetime g)).map merge_bucket)
    []

/-- The observable outcome of `main` (`visualizer.py:164-172`): an
empty preprocessed frame short-circuits with the "No valid data"
message before any rendering; a non-empty one is rendered. -/
inductive MainOutcome
  | noData
  | rendered (records : List Merged)
  deriving DecidableEq, Repr

/-- The dispatch of `main` on `df.empty` (`visualizer.py:167-172`). -/
def main_outcome (df : List Sample) : MainOutcome :=
  let d := preprocess_data df
  if d.isEmpty then MainOutcome.noData else MainOutcome.rendered d

end CommsDataVisualizer.visualizer

namespace CommsDataVisualizer

/-! Section: Semantic characterisations of the reductions -/

/-- Predicate: `o` is the skipna minimum of the list of present values `vs`:
missing exactly when there is no value, otherwise an attained lower
bound. -/
def IsMinOf (o : Option Rat) (vs : List Rat) : Prop :=
  (o = none ↔ vs = []) ∧ ∀ m, o = some m → m ∈ vs ∧ ∀ v ∈ vs, m ≤ v

/-- Predicate: `o` is the skipna maximum of the list of present values `vs`. -/
def IsMaxOf (o : Option Rat) (vs : List Rat) : Prop :=
  (o = none ↔ vs = []) ∧ ∀ m, o = some m → m ∈ vs ∧ ∀ v ∈ vs, v ≤ m

/-- Predicate: `o` is the skipna arithmetic mean of the list of present values
`vs`: missing exactly when there is no value, otherwise the value `m`
with `m * |vs| = Σ vs`. -/
def IsMeanOf (o : Option Rat) (vs : List Rat) : Prop :=
  (o = none ↔ vs = []) ∧ ∀ m, o = some m → m * (vs.length : Rat) = vs.sum

/-- One declared numeric metric: its input column, the field of the
merged record holding its mean, and the fields (when the source
declares them) holding its minimum and maximum. -/
structure MetricCols where
  col : Sample → Option Rat
  meanField : Merged → Option Rat
  minField : Option (Merged → Option Rat)
  maxField : Option (Merged → Option Rat)

/-- The eight declared numeric metrics as `merge_bucket` treats them
(`visualizer.py:134-151`): every metric gets a mean; extrema fields
exist for signal, noise, tx rate and rx rate only. -/
def metricTable : List MetricCols :=
  [ ⟨Sample.wireless_signal, Merged.wireless_signal,
      some Merged.signal_min, some Merged.signal_max⟩,
    ⟨Sample.wireless_noisef, Merged.wireless_noisef,
      some Merged.noise_min, some Merged.noise_max⟩,
    ⟨Sample.wireless_rssi, Merged.wireless_rssi, none, none⟩,
    ⟨Sample.wireless_txpower, Merged.wireless_txpower, none, none⟩,
    ⟨Sample.wireless_distance, Merged.wireless_distance, none, none⟩,
    ⟨Sample.wireless_ccq, Merged.wireless_ccq, none, none⟩,
    ⟨Sample.wireless_txrate, Merged.wireless_txrate,
      some Merged.wireless_txrate_min, some Merged.wireless_txrate_max⟩,
    ⟨Sample.wireless_rxrate, Merged.wireless_rxrate,
      some Merged.wireless_rxrate_min, some Merged.wireless_rxrate_max⟩ ]

/-- Every rational-valued cell of a merged record (its coordinates and
all its per-metric statistics): the pool of values the record
"carries".  A statistic the record is claimed to carry must appear
here. -/
def Merged.statValues (r : Merged) : List (Option Rat) :=
  [ r.latitude, r.longitude,
    r.signal_min, r.signal_max, r.noise_min, r.noise_max,
    r.wireless_txrate_max, r.wireless_txrate_min,
    r.wireless_rxrate_max, r.wireless_rxrate_min,
    r.wireless_signal, r.wireless_noisef, r.wireless_rssi,
    r.wireless_txpower, r.wireless_distance, r.wireless_ccq,
    r.wireless_txrate, r.wireless_rxrate ]

/-! Section: Concrete fixtures -/

/-- A row with every cell missing. -/
def blank : Sample :=
  ⟨none, none, none, none, none, none, none, none, none, none, none,
   none, none, none⟩

/-- A minimal valid row at coordinate (10, 20), taken at second `t`. -/
def at10 (t : Int) : Sample :=
  { blank with
    datetime := some t
    latitude := some 10
    longitude := some 20 }

/-- Merge-boundary fixture: rows at seconds 0, 5, 6, 13 at one
coordinate. -/
def bdry : List Sample := [at10 0, at10 5, at10 6, at10 13]

/-- A valid row at (50, 60) whose only present metric is rssi `r`, for
the extrema counterexample: every other statistic of its window is
missing, so no other field can coincide with rssi's minimum. -/
def rich (r : Rat) : Sample :=
  { blank with
    datetime := some 100
    latitude := some 50
    longitude := some 60
    wireless_rssi := some r }

/-- A window in which rssi takes the values 1 and 9. -/
def rssiWindow : List Sample := [rich 1, rich 9]

/-- A valid row whose signal is present. -/
def sigPresent : Sample :=
  { at10 0 with wireless_signal := some (-50) }

/-- A valid row whose signal is missing. -/
def sigMissing : Sample :=
  { at10 2 with wireless_signal := none }

/-- Exact-grouping fixture: latitude 10. -/
def p8 : Sample := at10 0

/-- The rational 10 + 1e-9 = 10000000001/1000000000, given in lowest
terms so that the kernel can evaluate comparisons on it. -/
def lat9 : Rat := ⟨10000000001, 1000000000, by decide, by decide⟩

/-- Exact-grouping fixture: latitude 10 + 1e-9, same longitude and
time as `p8`. -/
def q8 : Sample :=
  { at10 0 with latitude := some lat9 }

end CommsDataVisualizer

namespace CommsDataVisualizer.visualizer2

/-!
The file `visualizer2.py` carries its own textual copy of the aggregation core:
`MERGE_WINDOW_SECONDS` (`visualizer2.py:10`), `preprocess_data`
(`visualizer2.py:99-141`) and `merge_bucket` (`visualizer2.py:144-183`).
The copies below transcribe that file; the pandas primitives
(`series_min`, sorting, grouping, ...) are the shared library both
files import.
-/

/-- The constant `MERGE_WINDOW_SECONDS = 6` (`visualizer2.py:10`). -/
def MERGE_WINDOW_SECONDS : Int := 6

/-- The bucket test at `visualizer2.py:131`. -/
def withinWindow (t start : Option Int) : Bool :=
  match t, start with
  | some a, some b => decide (a - b ≤ MERGE_WINDOW_SECONDS)
  | _, _ => false

/-- The bucket-building loop of `preprocess_data`
(`visualizer2.py:122-139`). -/
def windowLoop : List Sample → List Sample → Option Int → List (List Sample)
  | [], cur, _ => if cur.isEmpty then [] else [cur]
  | row :: rest, cur, start =>
    if cur.isEmpty then windowLoop rest [row] row.datetime
    else if withinWindow row.datetime start then
      windowLoop rest (cur ++ [row]) start
    else
      cur :: windowLoop rest [row] row.datetime

/-- The merge-windows of one location group (`visualizer2.py`). -/
def windows (group : List Sample) : List (List Sample) :=
  windowLoop group [] none

/-- Transcription of `merge_bucket` (`visualizer2.py:144-183`). -/
def merge_bucket (rows : List Sample) : Merged :=
  { datetime := dt_min (rows.map Sample.datetime)
    latitude := (rows.head?).bind Sample.latitude
    longitude := (rows.head?).bind Sample.longitude
    signal_min := series_min (rows.map Sample.wireless_signal)
    signal_max := series_max (rows.map Sample.wireless_signal)
    noise_min := series_min (rows.map Sample.wireless_noisef)
    noise_max := series_max (rows.map Sample.wireless_noisef)
    wireless_txrate_max := series_max (rows.map Sample.wireless_txrate)
    wireless_txrate_min := series_min (rows.map Sample.wireless_txrate)
    wireless_rxrate_max := series_max (rows.map Sample.wireless_rxrate)
    wireless_rxrate_min := series_min (rows.map Sample.wireless_rxrate)
    wireless_signal := series_mean (rows.map Sample.wireless_signal)
    wireless_noisef := series_mean (rows.map Sample.wireless_noisef)
    wireless_rssi := series_mean (rows.map Sample.wireless_rssi)
    wireless_txpower := series_mean (rows.map Sample.wireless_txpower)
    wireless_distance := series_mean (rows.map Sample.wireless_distance)
    wireless_ccq := series_mean (rows.map Sample.wireless_ccq)
    wireless_txrate := series_mean (rows.map Sample.wireless_txrate)
    wireless_rxrate := series_mean (rows.map Sample.wireless_rxrate)
    wireless_channel := (rows.head?).bind Sample.wireless_channel
    wireless_frequency := (rows.head?).bind Sample.wireless_frequency
    wireless_opmode := (rows.head?).bind Sample.wireless_opmode
    samples_merged := rows.length }

/-- Model of `pd.to_datetime(df["datetime"], errors="coerce")`
(`visualizer2.py:108`). -/
def parse_datetime_col (rows : List Sample) : List Sample :=
  rows.map (fun s => { s with datetime := s.datetime })

/-- Transcription of `preprocess_data` (`visualizer2.py:99-141`). -/
def preprocess_data (df : List Sample) : List Merged :=
  let df1 := parse_datetime_col df
  let df2 := df1.filter valid
  let df3 := sort_values_key df2
  (groupRuns df3).foldl
    (fun merged_rows g =>
      merged_rows ++ (windows (sort_values_datetime g)).map merge_bucket)
    []

end CommsDataVisualizer.visualizer2

namespace CommsDataVisualizer.visualizer

/-!
Section: Heap model for the frame property

Python dataframes are heap objects handled by reference.
`preprocess_data` receives the caller's dataframe by reference, makes a
copy (`df = df.copy()`, `visualizer.py:83`), and the one genuinely
in-place statement of the body — the column assignment
`df["datetime"] = pd.to_datetime(...)` (`visualizer.py:86`) — then hits
the copy; `dropna` and `sort_values` return fresh frames.  The heap
model below makes the object identities explicit so that "the caller's
collection is left unchanged" is a provable statement rather than a
vacuity of the pure embedding.
-/

/-- A reference to a dataframe cell in the heap. -/
abbrev Ref := Nat

/-- The heap of live dataframes. -/
structure Heap where
  cells : List (List Sample)
  deriving DecidableEq, Repr

/-- Allocate a fresh dataframe, returning its reference. -/
def Heap.alloc (h : Heap) (v : List Sample) : Heap × Ref :=
  (⟨h.cells ++ [v]⟩, h.cells.length)

/-- Dereference (out-of-range reads return the empty frame). -/
def Heap.get (h : Heap) (r : Ref) : List Sample :=
  h.cells.getD r []

/-- Overwrite a dataframe in place. -/
def Heap.set (h : Heap) (r : Ref) (v : List Sample) : Heap :=
  ⟨h.cells.set r v⟩

/-- The statements of `preprocess_data` (`visualizer.py:83-119`) acting
on the heap, with the caller's dataframe passed by reference:
`df.copy()` allocates, the `df["datetime"] = ...` column assignment
mutates the copy in place, `dropna` and `sort_values` allocate fresh
frames, and the merged rows are returned. -/
def preprocess_data_on_heap (h0 : Heap) (dfRef : Ref) : Heap × List Merged :=
  let p1 := h0.alloc (h0.get dfRef)
  let h1 := p1.1
  let rCopy := p1.2
  let h2 := h1.set rCopy (parse_datetime_col (h1.get rCopy))
  let p3 := h2.alloc ((h2.get rCopy).filter valid)
  let h3 := p3.1
  let rDrop := p3.2
  let p4 := h3.alloc (sort_values_key (h3.get rDrop))
  let h4 := p4.1
  let rSort := p4.2
  (h4,
    (groupRuns (h4.get rSort)).foldl
      (fun merged_rows g =>
        merged_rows ++ (windows (sort_values_datetime g)).map merge_bucket)
      [])

end CommsDataVisualizer.visualizer

namespace CommsDataVisualizer

/-! Section: Reduction lemmas: skipna min / max / mean -/

theorem foldl_min_mem {α} [LinearOrder α] (vs : List α) (v : α) :
    vs.foldl min v ∈ v :: vs := by
  induction vs generalizing v with
  | nil => simp
  | cons u vs ih =>
    rw [List.foldl_cons]
    rcases List.mem_cons.mp (ih (min v u)) with h1 | h1
    · rcases le_total v u with hle | hle
      · rw [min_eq_left hle] at h1
        rw [min_eq_left hle, h1]
        exact List.mem_cons_self _ _
      · rw [min_eq_right hle] at h1
        rw [min_eq_right hle, h1]
        exact List.mem_cons_of_mem _ (List.mem_cons_self _ _)
    · exact List.mem_cons_of_mem _ (List.mem_cons_of_mem _ h1)

theorem foldl_min_le {α} [LinearOrder α] (vs : List α) (v : α) :
    vs.foldl min v ≤ v ∧ ∀ u ∈ vs, vs.foldl min v ≤ u := by
  induction vs generalizing v with
  | nil => simp
  | cons u vs ih =>
    obtain ⟨h1, h2⟩ := ih (min v u)
    rw [List.foldl_cons]
    refine ⟨le_trans h1 (min_le_left _ _), ?_⟩
    intro w hw
    rcases List.mem_cons.mp hw with rfl | hw
    · exact le_trans h1 (min_le_right _ _)
    · exact h2 w hw

theorem foldl_max_mem {α} [LinearOrder α] (vs : List α) (v : α) :
    vs.foldl max v ∈ v :: vs := by
  induction vs generalizing v with
  | nil => simp
  | cons u vs ih =>
    rw [List.foldl_cons]
    rcases List.mem_cons.mp (ih (max v u)) with h1 | h1
    · rcases le_total v u with hle | hle
      · rw [max_eq_right hle] at h1
        rw [max_eq_right hle, h1]
        exact List.mem_cons_of_mem _ (List.mem_cons_self _ _)
      · rw [max_eq_left hle] at h1
        rw [max_eq_left hle, h1]
        exact List.mem_cons_self _ _
    · exact List.mem_cons_of_mem _ (List.mem_cons_of_mem _ h1)

theorem foldl_max_ge {α} [LinearOrder α] (vs : List α) (v : α) :
    v ≤ vs.foldl max v ∧ ∀ u ∈ vs, u ≤ vs.foldl max v := by
  induction vs generalizing v with
  | nil => simp
  | cons u vs ih =>
    obtain ⟨h1, h2⟩ := ih (max v u)
    rw [List.foldl_cons]
    refine ⟨le_trans (le_max_left _ _) h1, ?_⟩
    intro w hw
    rcases List.mem_cons.mp hw with rfl | hw
    · exact le_trans (le_max_right _ _) h1
    · exact h2 w hw

theorem series_min_spec (xs : List (Option Rat)) :
    IsMinOf (series_min xs) (series_vals xs) := by
  unfold IsMinOf
  cases h : series_vals xs with
  | nil => simp [series_min, h]
  | cons v vs =>
    simp only [series_min, h]
    refine ⟨by simp, ?_⟩
    intro m hm
    obtain rfl : vs.foldl min v = m := by simpa using hm
    refine ⟨foldl_min_mem vs v, ?_⟩
    intro u hu
    rcases List.mem_cons.mp hu with rfl | hu
    · exact (foldl_min_le vs u).1
    · exact (foldl_min_le vs v).2 u hu

theorem series_max_spec (xs : List (Option Rat)) :
    IsMaxOf (series_max xs) (series_vals xs) := by
  unfold IsMaxOf
  cases h : series_vals xs with
  | nil => simp [series_max, h]
  | cons v vs =>
    simp only [series_max, h]
    refine ⟨by simp, ?_⟩
    intro m hm
    obtain rfl : vs.foldl max v = m := by simpa using hm
    refine ⟨foldl_max_mem vs v, ?_⟩
    intro u hu
    rcases List.mem_cons.mp hu with rfl | hu
    · exact (foldl_max_ge vs u).1
    · exact (foldl_max_ge vs v).2 u hu

theorem series_mean_spec (xs : List (Option Rat)) :
    IsMeanOf (series_mean xs) (series_vals xs) := by
  unfold IsMeanOf
  cases h : series_vals xs with
  | nil => simp [series_mean, h]
  | cons v vs =>
    simp only [series_mean, h]
    refine ⟨by simp, ?_⟩
    intro m hm
    obtain rfl : (v :: vs).sum / ((v :: vs).length : Rat) = m := by simpa using hm
    have hlen : (((v :: vs).length : Nat) : Rat) ≠ 0 := by
      have h0 : (v :: vs).length ≠ 0 := by simp
      exact_mod_cast h0
    exact div_mul_cancel₀ _ hlen

/-- All cells missing means no present values. -/
theorem series_vals_eq_nil (xs : List (Option Rat)) (h : ∀ x ∈ xs, x = none) :
    series_vals xs = [] := by
  induction xs with
  | nil => rfl
  | cons x xs ih =>
    have hx := h x (List.mem_cons_self _ _)
    subst hx
    simpa [series_vals] using ih (fun y hy => h y (List.mem_cons_of_mem _ hy))

/-- The datetime column's skipna minimum: missing only when no value is
present, otherwise an attained lower bound of the present values. -/
theorem dt_min_spec (xs : List (Option Int)) :
    (dt_min xs = none ↔ xs.filterMap id = []) ∧
      ∀ m, dt_min xs = some m →
        m ∈ xs.filterMap id ∧ ∀ v ∈ xs.filterMap id, m ≤ v := by
  cases h : xs.filterMap id with
  | nil => simp [dt_min, h]
  | cons v vs =>
    simp only [dt_min, h]
    refine ⟨by simp, ?_⟩
    intro m hm
    obtain rfl : vs.foldl min v = m := by simpa using hm
    refine ⟨foldl_min_mem vs v, ?_⟩
    intro u hu
    rcases List.mem_cons.mp hu with rfl | hu
    · exact (foldl_min_le vs u).1
    · exact (foldl_min_le vs v).2 u hu

/-! Section: Sorting lemmas -/

theorem insertSorted_perm {α} (le : α → α → Bool) (x : α) :
    ∀ l : List α, (insertSorted le x l).Perm (x :: l) := by
  intro l
  induction l with
  | nil => simp [insertSorted]
  | cons y ys ih =>
    by_cases h : le x y
    · simp [insertSorted, h]
    · simp only [insertSorted, h, if_neg, Bool.false_eq_true, ite_false]
      exact (ih.cons y).trans (List.Perm.swap x y ys)

theorem insertionSort_perm {α} (le : α → α → Bool) :
    ∀ l : List α, (insertionSort le l).Perm l := by
  intro l
  induction l with
  | nil => simp [insertionSort]
  | cons x xs ih =>
    exact (insertSorted_perm le x (insertionSort le xs)).trans (ih.cons x)

theorem pairwise_insertSorted {α} (le : α → α → Bool)
    (htr : ∀ a b c, le a b = true → le b c = true → le a c = true)
    (hto : ∀ a b, le a b = true ∨ le b a = true) (x : α) :
    ∀ l : List α, l.Pairwise (fun a b => le a b = true) →
      (insertSorted le x l).Pairwise (fun a b => le a b = true) := by
  intro l
  induction l with
  | nil => simp [insertSorted]
  | cons y ys ih =>
    intro hp
    rw [List.pairwise_cons] at hp
    obtain ⟨hy, hys⟩ := hp
    by_cases h : le x y
    · simp only [insertSorted, h, ite_true]
      rw [List.pairwise_cons]
      refine ⟨?_, by rw [List.pairwise_cons]; exact ⟨hy, hys⟩⟩
      intro z hz
      rcases List.mem_cons.mp hz with rfl | hz
      · exact h
      · exact htr x y z h (hy z hz)
    · simp only [insertSorted, h, Bool.false_eq_true, ite_false]
      rw [List.pairwise_cons]
      refine ⟨?_, ih hys⟩
      intro z hz
      have hz2 := (insertSorted_perm le x ys).mem_iff.mp hz
      rcases List.mem_cons.mp hz2 with rfl | hz2
      · rcases hto z y with h1 | h1
        · exact absurd h1 h
        · exact h1
      · exact hy z hz2

theorem pairwise_insertionSort {α} (le : α → α → Bool)
    (htr : ∀ a b c, le a b = true → le b c = true → le a c = true)
    (hto : ∀ a b, le a b = true ∨ le b a = true) :
    ∀ l : List α, (insertionSort le l).Pairwise (fun a b => le a b = true) := by
  intro l
  induction l with
  | nil => simp [insertionSort]
  | cons x xs ih => exact pairwise_insertSorted le htr hto x _ ih

theorem dtLe_total (a b : Sample) : dtLe a b = true ∨ dtLe b a = true := by
  unfold dtLe optIntLe
  cases a.datetime with
  | none => cases b.datetime <;> simp
  | some x =>
    cases b.datetime with
    | none => simp
    | some y =>
      rcases Int.le_total x y with h | h
      · left
        simpa using h
      · right
        simpa using h

theorem dtLe_trans (a b c : Sample) (h1 : dtLe a b = true)
    (h2 : dtLe b c = true) : dtLe a c = true := by
  unfold dtLe optIntLe at h1 h2 ⊢
  cases ha : a.datetime <;> cases hb : b.datetime <;> cases hc : c.datetime <;>
    rw [ha, hb] at h1 <;> rw [hb, hc] at h2 <;> simp_all
  omega

/-! Section: Grouping lemmas -/

theorem groupRuns_join : ∀ l : List Sample, (groupRuns l).flatten = l := by
  intro l
  induction l with
  | nil => rfl
  | cons s rest ih =>
    cases hg : groupRuns rest with
    | nil =>
      have hr : rest = [] := by rw [← ih, hg]; rfl
      subst hr
      simp [groupRuns]
    | cons g1 gs =>
      cases g1 with
      | nil =>
        have hr : gs.flatten = rest := by rw [← ih, hg]; simp
        simp [groupRuns, hg, hr]
      | cons t g0 =>
        have hr : t :: (g0 ++ gs.flatten) = rest := by rw [← ih, hg]; simp
        by_cases hk : locKey s = locKey t
        · simp [groupRuns, hg, hk, hr]
        · simp [groupRuns, hg, hk, hr]

theorem groupRuns_key_const :
    ∀ l : List Sample, ∀ g ∈ groupRuns l, ∀ a ∈ g, ∀ b ∈ g,
      locKey a = locKey b := by
  intro l
  induction l with
  | nil => simp [groupRuns]
  | cons s rest ih =>
    intro g hg a ha b hb
    cases hgr : groupRuns rest with
    | nil =>
      simp only [groupRuns, hgr, List.mem_singleton] at hg
      subst hg
      simp only [List.mem_singleton] at ha hb
      rw [ha, hb]
    | cons g1 gs =>
      cases g1 with
      | nil =>
        simp only [groupRuns, hgr] at hg
        rcases List.mem_cons.mp hg with rfl | hg2
        · simp only [List.mem_singleton] at ha hb
          rw [ha, hb]
        · rcases List.mem_cons.mp hg2 with rfl | hg3
          · exact absurd ha (List.not_mem_nil a)
          · exact ih g (by rw [hgr]; exact List.mem_cons_of_mem _ hg3) a ha b hb
      | cons t g0 =>
        have hall : ∀ x ∈ t :: g0, locKey x = locKey t := by
          intro x hx
          exact ih (t :: g0) (by rw [hgr]; exact List.mem_cons_self _ _) x hx t
            (List.mem_cons_self _ _)
        by_cases hk : locKey s = locKey t
        · simp only [groupRuns, hgr, hk, ite_true] at hg
          rcases List.mem_cons.mp hg with rfl | hg2
          · have key : ∀ x ∈ s :: t :: g0, locKey x = locKey t := by
              intro x hx
              rcases List.mem_cons.mp hx with rfl | hx2
              · exact hk
              · exact hall x hx2
            rw [key a ha, key b hb]
          · exact ih g (by rw [hgr]; exact List.mem_cons_of_mem _ hg2) a ha b hb
        · simp only [groupRuns, hgr, hk, ite_false] at hg
          rcases List.mem_cons.mp hg with rfl | hg2
          · simp only [List.mem_singleton] at ha hb
            rw [ha, hb]
          · exact ih g (by rw [hgr]; exact hg2) a ha b hb

/-! Section: Pipeline plumbing -/

theorem foldl_append_join {α β} (f : α → List β) :
    ∀ (gs : List α) (acc : List β),
      gs.foldl (fun a g => a ++ f g) acc = acc ++ (gs.map f).flatten := by
  intro gs
  induction gs with
  | nil => simp
  | cons g gs ih =>
    intro acc
    simp [ih, List.append_assoc]

theorem parse_col_eq_v1 (rows : List Sample) :
    visualizer.parse_datetime_col rows = rows :=
  List.map_id' rows

theorem parse_col_eq_v2 (rows : List Sample) :
    visualizer2.parse_datetime_col rows = rows :=
  List.map_id' rows

/-- Rewriting of `preprocess_data` in join normal form: merge every window of every
group, flattened in group order. -/
theorem preprocess_eq_v1 (df : List Sample) :
    visualizer.preprocess_data df =
      ((groupRuns (sort_values_key (df.filter valid))).map
        (fun g =>
          (visualizer.windows (sort_values_datetime g)).map
            visualizer.merge_bucket)).flatten := by
  unfold visualizer.preprocess_data
  rw [parse_col_eq_v1, foldl_append_join]
  simp

/-! Section: Windowing lemmas -/

/-- Flattening the emitted buckets gives back the pending bucket
followed by the unprocessed rows: the windower loses, duplicates and
reorders nothing. -/
theorem windowLoop_flatten :
    ∀ (rows cur : List Sample) (start : Option Int),
      (visualizer.windowLoop rows cur start).flatten = cur ++ rows := by
  intro rows
  induction rows with
  | nil =>
    intro cur start
    by_cases hc : cur.isEmpty
    · rw [List.isEmpty_iff] at hc
      subst hc
      simp [visualizer.windowLoop]
    · simp [visualizer.windowLoop, hc]
  | cons row rest ih =>
    intro cur start
    by_cases hc : cur.isEmpty
    · rw [List.isEmpty_iff] at hc
      subst hc
      simp [visualizer.windowLoop, ih]
    · by_cases hw : visualizer.withinWindow row.datetime start
      · simp [visualizer.windowLoop, hc, hw, ih]
      · simp [visualizer.windowLoop, hc, hw, ih]

theorem windows_flatten (g : List Sample) :
    (visualizer.windows g).flatten = g :=
  windowLoop_flatten g [] none

/-- No emitted bucket is empty. -/
theorem windowLoop_ne_nil :
    ∀ (rows cur : List Sample) (start : Option Int),
      ∀ w ∈ visualizer.windowLoop rows cur start, w ≠ [] := by
  intro rows
  induction rows with
  | nil =>
    intro cur start w hw
    by_cases hc : cur.isEmpty
    · simp [visualizer.windowLoop, hc] at hw
    · simp only [visualizer.windowLoop, hc, Bool.false_eq_true, ite_false,
        List.mem_singleton] at hw
      subst hw
      intro h
      rw [h] at hc
      simp at hc
  | cons row rest ih =>
    intro cur start w hw
    by_cases hc : cur.isEmpty
    · simp only [visualizer.windowLoop, hc, ite_true] at hw
      exact ih [row] row.datetime w hw
    · by_cases hww : visualizer.withinWindow row.datetime start
      · simp only [visualizer.windowLoop, hc, Bool.false_eq_true, ite_false,
          hww, ite_true] at hw
        exact ih (cur ++ [row]) start w hw
      · simp only [visualizer.windowLoop, hc, Bool.false_eq_true, ite_false,
          hww] at hw
        rcases List.mem_cons.mp hw with rfl | hw2
        · intro h
          rw [h] at hc
          simp at hc
        · exact ih [row] row.datetime w hw2

/-- The first emitted bucket extends the pending bucket. -/
theorem windowLoop_head_extend :
    ∀ (rows cur : List Sample) (start : Option Int), cur ≠ [] →
      ∃ ext, (visualizer.windowLoop rows cur start).head? = some (cur ++ ext) := by
  intro rows
  induction rows with
  | nil =>
    intro cur start hc
    have hc2 : cur.isEmpty = false := by simpa [List.isEmpty_iff] using hc
    refine ⟨[], ?_⟩
    simp [visualizer.windowLoop, hc2]
  | cons row rest ih =>
    intro cur start hc
    have hc2 : cur.isEmpty = false := by simpa [List.isEmpty_iff] using hc
    by_cases hw : visualizer.withinWindow row.datetime start
    · obtain ⟨ext, hext⟩ := ih (cur ++ [row]) start (by simp)
      refine ⟨[row] ++ ext, ?_⟩
      simp only [visualizer.windowLoop, hc2, Bool.false_eq_true, ite_false,
        hw, ite_true]
      rw [hext, List.append_assoc]
    · refine ⟨[], ?_⟩
      simp [visualizer.windowLoop, hc2, hw]

/-- Anchor-relative membership: inside every emitted bucket, every
non-anchor row passed the window test against the bucket's anchor
(first) row — never against the previous row. -/
theorem windowLoop_anchor :
    ∀ (rows cur : List Sample) (start : Option Int),
      (∀ a t, cur = a :: t → start = a.datetime ∧
        ∀ s ∈ t, visualizer.withinWindow s.datetime start = true) →
      ∀ w ∈ visualizer.windowLoop rows cur start, ∀ a t, w = a :: t →
        ∀ s ∈ t, visualizer.withinWindow s.datetime a.datetime = true := by
  intro rows
  induction rows with
  | nil =>
    intro cur start hinv w hw a t hwat s hs
    by_cases hc : cur.isEmpty
    · simp [visualizer.windowLoop, hc] at hw
    · simp only [visualizer.windowLoop, hc, Bool.false_eq_true, ite_false,
        List.mem_singleton] at hw
      subst hw
      obtain ⟨hstart, hmem⟩ := hinv a t hwat
      rw [← hstart]
      exact hmem s hs
  | cons row rest ih =>
    intro cur start hinv w hw a t hwat s hs
    by_cases hc : cur.isEmpty
    · simp only [visualizer.windowLoop, hc, ite_true] at hw
      refine ih [row] row.datetime ?_ w hw a t hwat s hs
      intro a2 t2 h2
      obtain ⟨rfl, rfl⟩ : row = a2 ∧ [] = t2 := by
        constructor <;> [exact (List.cons_eq_cons.mp h2).1;
          exact (List.cons_eq_cons.mp h2).2]
      exact ⟨rfl, by simp⟩
    · by_cases hww : visualizer.withinWindow row.datetime start
      · simp only [visualizer.windowLoop, hc, Bool.false_eq_true, ite_false,
          hww, ite_true] at hw
        refine ih (cur ++ [row]) start ?_ w hw a t hwat s hs
        intro a2 t2 h2
        obtain ⟨a1, t1, rfl⟩ : ∃ a1 t1, cur = a1 :: t1 := by
          cases cur with
          | nil => simp at hc
          | cons x xs => exact ⟨x, xs, rfl⟩
        obtain ⟨hstart, hmem⟩ := hinv a1 t1 rfl
        have ha2 : a2 = a1 := by
          have := h2
          simp only [List.cons_append, List.cons_eq_cons] at this
          exact this.1.symm
        have ht2 : t2 = t1 ++ [row] := by
          have := h2
          simp only [List.cons_append, List.cons_eq_cons] at this
          exact this.2.symm
        subst ha2
        subst ht2
        refine ⟨hstart, ?_⟩
        intro s2 hs2
        rcases List.mem_append.mp hs2 with hs3 | hs3
        · exact hmem s2 hs3
        · rw [List.mem_singleton] at hs3
          subst hs3
          exact hww
      · simp only [visualizer.windowLoop, hc, Bool.false_eq_true, ite_false,
          hww] at hw
        rcases List.mem_cons.mp hw with rfl | hw2
        · obtain ⟨hstart, hmem⟩ := hinv a t hwat
          rw [← hstart]
          exact hmem s hs
        · refine ih [row] row.datetime ?_ w hw2 a t hwat s hs
          intro a2 t2 h2
          obtain ⟨rfl, rfl⟩ : row = a2 ∧ [] = t2 := by
            constructor <;> [exact (List.cons_eq_cons.mp h2).1;
              exact (List.cons_eq_cons.mp h2).2]
          exact ⟨rfl, by simp⟩

/-- Boundary law: between consecutive emitted buckets, the second
bucket's anchor failed the window test against the first bucket's
anchor — a new window starts exactly when the test fails. -/
theorem windowLoop_chain :
    ∀ (rows cur : List Sample) (start : Option Int),
      (∀ a t, cur = a :: t → start = a.datetime) →
      List.Chain'
        (fun w1 w2 => ∀ a t1 b t2, w1 = a :: t1 → w2 = b :: t2 →
          visualizer.withinWindow b.datetime a.datetime = false)
        (visualizer.windowLoop rows cur start) := by
  intro rows
  induction rows with
  | nil =>
    intro cur start _
    by_cases hc : cur.isEmpty
    · simp [visualizer.windowLoop, hc]
    · simp [visualizer.windowLoop, hc]
  | cons row rest ih =>
    intro cur start hinv
    by_cases hc : cur.isEmpty
    · simp only [visualizer.windowLoop, hc, ite_true]
      refine ih [row] row.datetime ?_
      intro a t h2
      rw [(List.cons_eq_cons.mp h2).1]
    · by_cases hww : visualizer.withinWindow row.datetime start
      · simp only [visualizer.windowLoop, hc, Bool.false_eq_true, ite_false,
          hww, ite_true]
        refine ih (cur ++ [row]) start ?_
        intro a t h2
        obtain ⟨a1, t1, rfl⟩ : ∃ a1 t1, cur = a1 :: t1 := by
          cases cur with
          | nil => simp at hc
          | cons x xs => exact ⟨x, xs, rfl⟩
        have ha : a = a1 := by
          have := h2
          simp only [List.cons_append, List.cons_eq_cons] at this
          exact this.1.symm
        subst ha
        exact hinv a t1 rfl
      · simp only [visualizer.windowLoop, hc, Bool.false_eq_true, ite_false,
          hww]
        rw [List.chain'_cons']
        constructor
        · intro w2 hw2 a t1 b t2 hcur hw2eq
          obtain ⟨ext, hext⟩ :=
            windowLoop_head_extend rest [row] row.datetime (by simp)
          rw [hext] at hw2
          rw [Option.mem_def, Option.some_inj] at hw2
          subst hw2
          have hb : b = row := by
            have := hw2eq
            simp only [List.singleton_append, List.cons_eq_cons] at this
            exact this.1.symm
          subst hb
          have hstart : start = a.datetime := hinv a t1 hcur
          rw [← hstart]
          simpa using hww
        · refine ih [row] row.datetime ?_
          intro a t h2
          rw [(List.cons_eq_cons.mp h2).1]

/-- The loop bodies of the two files agree. -/
theorem windowLoop_eq :
    ∀ (rows cur : List Sample) (start : Option Int),
      visualizer.windowLoop rows cur start =
        visualizer2.windowLoop rows cur start := by
  intro rows
  induction rows with
  | nil => intro cur start; rfl
  | cons row rest ih =>
    intro cur start
    by_cases hc : cur.isEmpty
    · simp only [visualizer.windowLoop, visualizer2.windowLoop, hc, ite_true]
      exact ih [row] row.datetime
    · by_cases hww : visualizer.withinWindow row.datetime start
      · have hww2 : visualizer2.withinWindow row.datetime start = true := hww
        simp only [visualizer.windowLoop, visualizer2.windowLoop, hc,
          Bool.false_eq_true, ite_false, hww, hww2, ite_true]
        exact ih (cur ++ [row]) start
      · have hww2 : visualizer2.withinWindow row.datetime start = false := by
          simpa using hww
        simp only [visualizer.windowLoop, visualizer2.windowLoop, hc,
          Bool.false_eq_true, ite_false, hww, hww2]
        rw [ih [row] row.datetime]

/-! Section: Claims -/

/-- C1: within each same-coordinate group processed in ascending time
order, a new window starts at a sample exactly when its timestamp minus
the current window's anchor (first) sample's timestamp exceeds
6 seconds; the comparison is inclusive and always against the anchor.
Part 1: every non-anchor member of every emitted window passed the
inclusive anchor test.  Part 2: each consecutive window's anchor failed
the test against the previous window's anchor.  Part 3: samples at
0s, 5s, 6s, 13s at one coordinate give exactly the windows {0,5,6} and
{13}, of sizes 3 and 1. -/
theorem c1_window_boundary :
    (∀ xs : List Sample, ∀ w ∈ visualizer.windows xs, ∀ a t, w = a :: t →
      ∀ s ∈ t, ∀ ts ta : Int, s.datetime = some ts → a.datetime = some ta →
        ts - ta ≤ visualizer.MERGE_WINDOW_SECONDS) ∧
    (∀ xs : List Sample, List.Chain'
      (fun w1 w2 => ∀ a t1 b t2, w1 = a :: t1 → w2 = b :: t2 →
        ∀ tb ta : Int, b.datetime = some tb → a.datetime = some ta →
          visualizer.MERGE_WINDOW_SECONDS < tb - ta)
      (visualizer.windows xs)) ∧
    visualizer.windows bdry = [[at10 0, at10 5, at10 6], [at10 13]] ∧
    (visualizer.windows bdry).map List.length = [3, 1] := by
  refine ⟨?_, ?_, by decide, by decide⟩
  · intro xs w hw a t hwat s hs ts ta hts hta
    have h := windowLoop_anchor xs [] none (by intro a2 t2 h2; cases h2)
      w hw a t hwat s hs
    rw [hts, hta] at h
    simp only [visualizer.withinWindow] at h
    exact of_decide_eq_true h
  · intro xs
    have h := windowLoop_chain xs [] none (by intro a2 t2 h2; cases h2)
    refine h.imp ?_
    intro w1 w2 hrel a t1 b t2 h1 h2 tb ta htb hta
    have hfalse := hrel a t1 b t2 h1 h2
    rw [htb, hta] at hfalse
    simp only [visualizer.withinWindow] at hfalse
    exact not_le.mp (of_decide_eq_false hfalse)

/-- Witness for C1 at the boundary fixture: the window {0s, 5s, 6s} is
emitted, and its member at 6s is within the inclusive threshold of the
anchor at 0s. -/
theorem c1_witness :
    [at10 0, at10 5, at10 6] ∈ visualizer.windows bdry ∧
    (6 : Int) - 0 ≤ visualizer.MERGE_WINDOW_SECONDS :=
  ⟨by decide, c1_window_boundary.1 bdry [at10 0, at10 5, at10 6] (by decide)
    (at10 0) [at10 5, at10 6] rfl (at10 6) (by decide) 6 0 rfl rfl⟩

/-- C2: over any non-empty input, the `samples_merged` fields of the
output records sum to the number of valid input samples (rows with a
parseable timestamp and both coordinates); when every input row is
valid, to the input length. -/
theorem c2_samples_conserved (df : List Sample) (_hne : df ≠ []) :
    ((visualizer.preprocess_data df).map Merged.samples_merged).sum =
      (df.filter valid).length ∧
    ((∀ s ∈ df, valid s = true) →
      ((visualizer.preprocess_data df).map Merged.samples_merged).sum =
        df.length) := by
  have key : ∀ g : List Sample,
      ((((visualizer.windows (sort_values_datetime g)).map
        visualizer.merge_bucket)).map Merged.samples_merged).sum = g.length := by
    intro g
    rw [List.map_map]
    have h1 : (Merged.samples_merged ∘ visualizer.merge_bucket) =
        List.length (α := Sample) := rfl
    rw [h1, ← List.length_flatten, windows_flatten]
    exact ((insertionSort_perm dtLe g).length_eq)
  have gen : ∀ gs : List (List Sample),
      (((gs.map (fun g =>
        (visualizer.windows (sort_values_datetime g)).map
          visualizer.merge_bucket)).flatten).map Merged.samples_merged).sum =
      (gs.map List.length).sum := by
    intro gs
    induction gs with
    | nil => simp
    | cons g gs ih =>
      simp only [List.map_cons, List.flatten_cons, List.map_append,
        List.sum_append, ih, List.sum_cons, key g]
  have main : ((visualizer.preprocess_data df).map Merged.samples_merged).sum =
      (df.filter valid).length := by
    rw [preprocess_eq_v1, gen, ← List.length_flatten, groupRuns_join]
    exact (insertionSort_perm sampleKeyLe (df.filter valid)).length_eq
  refine ⟨main, ?_⟩
  intro hv
  rw [main, List.filter_eq_self.mpr hv]

/-- Witness for C2 on a one-row valid input. -/
theorem c2_witness :
    [at10 0] ≠ [] ∧
    ((visualizer.preprocess_data [at10 0]).map Merged.samples_merged).sum =
      ([at10 0].filter valid).length :=
  ⟨by decide, (c2_samples_conserved [at10 0] (by decide)).1⟩

/-- C4: for every group of the pipeline, flattening the emitted windows
in emission order reconstructs exactly the group's samples in ascending
timestamp order: nothing lost, duplicated or reordered across
windows. -/
theorem c4_windows_reconstruct (df g : List Sample)
    (_hg : g ∈ groupRuns (sort_values_key (df.filter valid))) :
    (visualizer.windows (sort_values_datetime g)).flatten =
      sort_values_datetime g ∧
    (sort_values_datetime g).Perm g ∧
    (sort_values_datetime g).Pairwise (fun a b => dtLe a b = true) :=
  ⟨windows_flatten _, insertionSort_perm dtLe g,
    pairwise_insertionSort dtLe dtLe_trans dtLe_total g⟩

/-- Witness for C4 on a two-row group. -/
theorem c4_witness :
    [at10 0, at10 13] ∈
      groupRuns (sort_values_key ([at10 0, at10 13].filter valid)) ∧
    (visualizer.windows (sort_values_datetime [at10 0, at10 13])).flatten =
      sort_values_datetime [at10 0, at10 13] :=
  ⟨by decide,
    (c4_windows_reconstruct [at10 0, at10 13] [at10 0, at10 13] (by decide)).1⟩

/-- C6: an input with no valid samples gives an empty output collection
without error, and `main` reports it as the distinguishable no-data
outcome (the "No valid data" short-circuit) rather than rendering, while
a non-empty result is rendered. -/
theorem c6_no_data (df : List Sample) :
    (df.filter valid = [] →
      visualizer.preprocess_data df = [] ∧
      visualizer.main_outcome df = visualizer.MainOutcome.noData) ∧
    (∀ recs, visualizer.MainOutcome.noData ≠
      visualizer.MainOutcome.rendered recs) ∧
    (visualizer.preprocess_data df ≠ [] →
      visualizer.main_outcome df =
        visualizer.MainOutcome.rendered (visualizer.preprocess_data df)) := by
  refine ⟨?_, fun recs => by simp, ?_⟩
  · intro h
    have hp : visualizer.preprocess_data df = [] := by
      rw [preprocess_eq_v1, h]
      rfl
    refine ⟨hp, ?_⟩
    unfold visualizer.main_outcome
    rw [hp]
    rfl
  · intro h
    unfold visualizer.main_outcome
    rw [if_neg]
    simpa [List.isEmpty_iff] using h

/-- Witness for C6 on an input whose single row has no timestamp. -/
theorem c6_witness :
    [blank].filter valid = [] ∧
    visualizer.main_outcome [blank] = visualizer.MainOutcome.noData :=
  ⟨by decide, ((c6_no_data [blank]).1 (by decide)).2⟩

/-- C8: grouping is exact value equality on the coordinate pair, with
no tolerance.  Part 1: every group is constant in `locKey`.  Part 2:
every window's samples come from its group.  Part 3: two samples whose
latitudes differ by exactly 1e-9 land in two separate groups of size 1
and produce two aggregate records of `samples_merged` 1 each. -/
theorem c8_exact_grouping :
    (∀ l : List Sample, ∀ g ∈ groupRuns l, ∀ a ∈ g, ∀ b ∈ g,
      locKey a = locKey b) ∧
    (∀ g : List Sample, ∀ w ∈ visualizer.windows (sort_values_datetime g),
      ∀ s ∈ w, s ∈ g) ∧
    p8.latitude = some 10 ∧
    q8.latitude = some (10 + 1 / 1000000000) ∧
    p8.latitude ≠ q8.latitude ∧
    groupRuns (sort_values_key ([p8, q8].filter valid)) = [[p8], [q8]] ∧
    visualizer.preprocess_data [p8, q8] =
      [visualizer.merge_bucket [p8], visualizer.merge_bucket [q8]] ∧
    (visualizer.preprocess_data [p8, q8]).map Merged.samples_merged =
      [1, 1] := by
  refine ⟨groupRuns_key_const, ?_, rfl, ?_, by decide, by decide, by decide,
    by decide⟩
  · intro g w hw s hs
    have hmem : s ∈ (visualizer.windows (sort_values_datetime g)).flatten :=
      List.mem_flatten_of_mem hw hs
    rw [windows_flatten] at hmem
    exact (insertionSort_perm dtLe g).mem_iff.mp hmem
  · show q8.latitude = some (10 + 1 / 1000000000)
    have h9 : lat9 = 10 + 1 / 1000000000 := by
      rw [show lat9 = (⟨10000000001, 1000000000, by decide, by decide⟩ : Rat)
        from rfl, Rat.mk'_eq_divInt, Rat.divInt_eq_div]
      norm_num
    rw [show q8.latitude = some lat9 from rfl, h9]

/-- Witness for C8: the singleton group of `p8` is key-constant. -/
theorem c8_witness :
    [p8] ∈ groupRuns [p8, q8] ∧ locKey p8 = locKey p8 :=
  ⟨by decide, c8_exact_grouping.1 [p8, q8] [p8] (by decide) p8 (by decide)
    p8 (by decide)⟩

/-- C3 counterexample: the claim asserts the reducer records minimum,
maximum and mean for every declared numeric metric, rssi included; but
for the window with rssi values {1, 9} the rssi minimum 1 appears in no
rational-valued field of the aggregate record: the source computes
extrema only for signal, noise, tx rate and rx rate. -/
theorem c3_counterexample :
    series_min (rssiWindow.map Sample.wireless_rssi) = some 1 ∧
    some (1 : Rat) ∉ (visualizer.merge_bucket rssiWindow).statValues := by
  refine ⟨by decide, ?_⟩
  simp [visualizer.merge_bucket, Merged.statValues, rssiWindow, rich, blank,
    series_min, series_max, series_mean, series_vals]
  norm_num

/-- C3 (amended): the reducer yields one record per non-empty window
with `samples_merged` the window size (≥ 1); categorical fields copied
from the window's first sample; the timestamp the minimum timestamp
among the window's samples; the mean for every declared numeric metric;
and minimum and maximum for the metrics the source declares extrema
for — signal, noise, tx rate, rx rate (the other four get only a
mean). -/
theorem c3_merge_bucket (rows : List Sample) (hne : rows ≠ []) :
    ((visualizer.merge_bucket rows).samples_merged = rows.length ∧
      1 ≤ (visualizer.merge_bucket rows).samples_merged) ∧
    (∀ a t, rows = a :: t →
      (visualizer.merge_bucket rows).wireless_channel = a.wireless_channel ∧
      (visualizer.merge_bucket rows).wireless_frequency =
        a.wireless_frequency ∧
      (visualizer.merge_bucket rows).wireless_opmode = a.wireless_opmode) ∧
    ((∀ s ∈ rows, (s.datetime).isSome = true) →
      ∃ m, (visualizer.merge_bucket rows).datetime = some m ∧
        some m ∈ rows.map Sample.datetime ∧
        ∀ s ∈ rows, ∀ ts, s.datetime = some ts → m ≤ ts) ∧
    (∀ ms ∈ metricTable,
      IsMeanOf (ms.meanField (visualizer.merge_bucket rows))
        (series_vals (rows.map ms.col)) ∧
      (∀ f, ms.minField = some f →
        IsMinOf (f (visualizer.merge_bucket rows))
          (series_vals (rows.map ms.col))) ∧
      (∀ f, ms.maxField = some f →
        IsMaxOf (f (visualizer.merge_bucket rows))
          (series_vals (rows.map ms.col)))) := by
  obtain ⟨a0, t0, rfl⟩ : ∃ a0 t0, rows = a0 :: t0 := by
    cases rows with
    | nil => exact absurd rfl hne
    | cons x xs => exact ⟨x, xs, rfl⟩
  refine ⟨⟨rfl, by simp [visualizer.merge_bucket]⟩, ?_, ?_, ?_⟩
  · intro a t h2
    obtain ⟨rfl, rfl⟩ := List.cons_eq_cons.mp h2
    exact ⟨rfl, rfl, rfl⟩
  · intro hsome
    have ha0 := hsome a0 (List.mem_cons_self _ _)
    obtain ⟨ta, hta⟩ := Option.isSome_iff_exists.mp ha0
    have hspec := dt_min_spec ((a0 :: t0).map Sample.datetime)
    cases hmin : dt_min ((a0 :: t0).map Sample.datetime) with
    | none =>
      have hnil := hspec.1.mp hmin
      have hta2 : ta ∈ ((a0 :: t0).map Sample.datetime).filterMap id := by
        refine List.mem_filterMap.mpr ⟨some ta, ?_, rfl⟩
        rw [← hta]
        exact List.mem_map_of_mem Sample.datetime (List.mem_cons_self _ _)
      rw [hnil] at hta2
      exact absurd hta2 (List.not_mem_nil ta)
    | some m =>
      obtain ⟨hmem, hlb⟩ := hspec.2 m hmin
      refine ⟨m, hmin, ?_, ?_⟩
      · obtain ⟨o, ho, hid⟩ := List.mem_filterMap.mp hmem
        have hid2 : o = some m := hid
        exact hid2 ▸ ho
      · intro s hs ts hts
        apply hlb
        refine List.mem_filterMap.mpr ⟨some ts, ?_, rfl⟩
        rw [← hts]
        exact List.mem_map_of_mem Sample.datetime hs
  · intro ms hms
    simp only [metricTable, List.mem_cons, List.not_mem_nil, or_false] at hms
    rcases hms with rfl | rfl | rfl | rfl | rfl | rfl | rfl | rfl
    · exact ⟨series_mean_spec _,
        fun f hf => by obtain rfl := Option.some.inj hf; exact series_min_spec _,
        fun f hf => by obtain rfl := Option.some.inj hf; exact series_max_spec _⟩
    · exact ⟨series_mean_spec _,
        fun f hf => by obtain rfl := Option.some.inj hf; exact series_min_spec _,
        fun f hf => by obtain rfl := Option.some.inj hf; exact series_max_spec _⟩
    · exact ⟨series_mean_spec _, fun f hf => Option.noConfusion hf, fun f hf => Option.noConfusion hf⟩
    · exact ⟨series_mean_spec _, fun f hf => Option.noConfusion hf, fun f hf => Option.noConfusion hf⟩
    · exact ⟨series_mean_spec _, fun f hf => Option.noConfusion hf, fun f hf => Option.noConfusion hf⟩
    · exact ⟨series_mean_spec _, fun f hf => Option.noConfusion hf, fun f hf => Option.noConfusion hf⟩
    · exact ⟨series_mean_spec _,
        fun f hf => by obtain rfl := Option.some.inj hf; exact series_min_spec _,
        fun f hf => by obtain rfl := Option.some.inj hf; exact series_max_spec _⟩
    · exact ⟨series_mean_spec _,
        fun f hf => by obtain rfl := Option.some.inj hf; exact series_min_spec _,
        fun f hf => by obtain rfl := Option.some.inj hf; exact series_max_spec _⟩

/-- Witness for the amended C3 on a one-row window. -/
theorem c3_witness :
    [at10 0] ≠ [] ∧
    ((visualizer.merge_bucket [at10 0]).samples_merged = [at10 0].length ∧
      1 ≤ (visualizer.merge_bucket [at10 0]).samples_merged) :=
  ⟨by decide, (c3_merge_bucket [at10 0] (by decide)).1⟩

/-- C5 counterexample: the claim asserts that a metric value missing in
SOME of a window's samples makes the affected statistic missing; but
for the window {signal = −50, signal = missing} the reducer skips the
missing value and reports min = max = −50 and a present mean — nothing
is missing. -/
theorem c5_counterexample :
    sigMissing.wireless_signal = none ∧
    (visualizer.merge_bucket [sigPresent, sigMissing]).signal_min =
      some (-50) ∧
    (visualizer.merge_bucket [sigPresent, sigMissing]).signal_min ≠ none ∧
    (visualizer.merge_bucket [sigPresent, sigMissing]).signal_max ≠ none ∧
    (visualizer.merge_bucket [sigPresent, sigMissing]).wireless_signal ≠
      none := by
  refine ⟨rfl, by decide, by decide, by decide, ?_⟩
  show series_mean ([sigPresent, sigMissing].map Sample.wireless_signal) ≠ none
  simp [series_mean, series_vals, sigPresent, sigMissing, at10, blank]

/-- C5 (amended): a missing metric value never makes the reducer raise;
a statistic is itself missing exactly when the metric is missing in ALL
of the window's samples (when only some are missing, the statistic is
computed over the present values), and the window's other fields are
still produced.  In particular a single-sample window with metric X
missing yields min = max = mean = missing for X. -/
theorem c5_missing_values (ms : MetricCols) (hms : ms ∈ metricTable)
    (rows : List Sample) (_hne : rows ≠ []) :
    ((∀ s ∈ rows, ms.col s = none) →
      ms.meanField (visualizer.merge_bucket rows) = none ∧
      (∀ f, ms.minField = some f →
        f (visualizer.merge_bucket rows) = none) ∧
      (∀ f, ms.maxField = some f →
        f (visualizer.merge_bucket rows) = none)) ∧
    IsMeanOf (ms.meanField (visualizer.merge_bucket rows))
      (series_vals (rows.map ms.col)) ∧
    (visualizer.merge_bucket rows).samples_merged = rows.length := by
  have hvals : (∀ s ∈ rows, ms.col s = none) →
      series_vals (rows.map ms.col) = [] := by
    intro hall
    apply series_vals_eq_nil
    intro x hx
    obtain ⟨s, hs, rfl⟩ := List.mem_map.mp hx
    exact hall s hs
  simp only [metricTable, List.mem_cons, List.not_mem_nil, or_false] at hms
  rcases hms with rfl | rfl | rfl | rfl | rfl | rfl | rfl | rfl <;>
    refine ⟨?_, series_mean_spec _, rfl⟩ <;> intro hall <;>
    refine ⟨(series_mean_spec _).1.mpr (hvals hall), ?_, ?_⟩ <;>
    first
      | exact fun f hf => Option.noConfusion hf
      | exact fun f hf => by
          obtain rfl := Option.some.inj hf
          first
            | exact (series_min_spec _).1.mpr (hvals hall)
            | exact (series_max_spec _).1.mpr (hvals hall)

/-- Witness for the amended C5: a one-row window whose signal is
missing yields missing signal min, max and mean. -/
theorem c5_witness :
    (⟨Sample.wireless_signal, Merged.wireless_signal,
      some Merged.signal_min, some Merged.signal_max⟩ : MetricCols) ∈
        metricTable ∧
    [at10 0] ≠ [] ∧
    (Merged.wireless_signal (visualizer.merge_bucket [at10 0]) = none ∧
      (∀ f, (some Merged.signal_min : Option (Merged → Option Rat)) =
        some f → f (visualizer.merge_bucket [at10 0]) = none) ∧
      (∀ f, (some Merged.signal_max : Option (Merged → Option Rat)) =
        some f → f (visualizer.merge_bucket [at10 0]) = none)) :=
  ⟨List.mem_cons_self _ _, by decide,
    (c5_missing_values ⟨Sample.wireless_signal, Merged.wireless_signal,
      some Merged.signal_min, some Merged.signal_max⟩
      (List.mem_cons_self _ _) [at10 0] (by decide)).1
      (by intro s hs; simp only [List.mem_singleton] at hs; rw [hs]; rfl)⟩

/-- C9: the aggregation core is implemented twice; `preprocess_data`
and `merge_bucket` of `visualizer.py` and of `visualizer2.py` compute
the same functions. -/
theorem c9_duplicate_equivalence :
    (∀ df : List Sample,
      visualizer.preprocess_data df = visualizer2.preprocess_data df) ∧
    (∀ rows : List Sample,
      visualizer.merge_bucket rows = visualizer2.merge_bucket rows) := by
  constructor
  · intro df
    unfold visualizer.preprocess_data visualizer2.preprocess_data
    have h2 : visualizer.windows = visualizer2.windows := by
      funext g
      exact windowLoop_eq g [] none
    have h3 : visualizer.merge_bucket = visualizer2.merge_bucket := rfl
    rw [show visualizer.parse_datetime_col = visualizer2.parse_datetime_col
      from rfl, h2, h3]
  · intro rows
    rfl

/-- C10: `preprocess_data` leaves the caller's collection unchanged —
the copy at `visualizer.py:83` shields the caller's dataframe from the
in-place datetime-column assignment, and the merged rows agree with the
pure function of the input value. -/
theorem c10_input_unchanged (h : visualizer.Heap) (r : visualizer.Ref)
    (hr : r < h.cells.length) :
    ((visualizer.preprocess_data_on_heap h r).1).get r = h.get r ∧
    (visualizer.preprocess_data_on_heap h r).2 =
      visualizer.preprocess_data (h.get r) := by
  unfold visualizer.preprocess_data_on_heap
  simp only [visualizer.Heap.alloc, visualizer.Heap.set, visualizer.Heap.get,
    List.getD_eq_getElem?_getD]
  set v := (h.cells[r]?).getD [] with hv
  have e1 : ((h.cells ++ [v])[h.cells.length]?).getD [] = v := by
    rw [List.getElem?_concat_length]
    rfl
  rw [e1]
  set P := visualizer.parse_datetime_col v with hP
  set Y := (h.cells ++ [v]).set h.cells.length P with hY
  have hYlen : Y.length = h.cells.length + 1 := by simp [hY]
  have e2 : (Y[h.cells.length]?).getD [] = P := by
    rw [hY, List.getElem?_set_self (by simp)]
    rfl
  rw [e2]
  set D := P.filter valid with hD
  have e3 : ((Y ++ [D])[Y.length]?).getD [] = D := by
    rw [List.getElem?_concat_length]
    rfl
  rw [e3]
  set S := sort_values_key D with hS
  have e4 : (((Y ++ [D]) ++ [S])[(Y ++ [D]).length]?).getD [] = S := by
    rw [List.getElem?_concat_length]
    rfl
  rw [e4]
  constructor
  · have hrY : r < Y.length := by
      rw [hYlen]
      exact Nat.lt_succ_of_lt hr
    have hrYD : r < (Y ++ [D]).length := by
      rw [List.length_append]
      exact Nat.lt_of_lt_of_le hrY (Nat.le_add_right _ _)
    rw [List.getElem?_append_left hrYD, List.getElem?_append_left hrY, hY,
      List.getElem?_set_ne (Ne.symm (Nat.ne_of_lt hr)),
      List.getElem?_append_left hr]
  · rw [hS, hD, hP]
    rfl

/-- Witness for C10 on a one-frame heap. -/
theorem c10_witness :
    0 < (⟨[[at10 0]]⟩ : visualizer.Heap).cells.length ∧
    ((visualizer.preprocess_data_on_heap ⟨[[at10 0]]⟩ 0).1).get 0 =
      (⟨[[at10 0]]⟩ : visualizer.Heap).get 0 :=
  ⟨by decide, (c10_input_unchanged ⟨[[at10 0]]⟩ 0 (by decide)).1⟩

end CommsDataVisualizer
